import Mathlib

/-!
Verification of the goru goroutine-dump explorer core (parser, grouping
model, diff engine, snapshot store) against its natural-language
specification.  The Go sources are shallowly embedded: machine integers
become `Nat`/`Int` with explicit reduction modulo `2 ^ 32` where the code
overflows, Go maps become association lists whose keys are unique by
construction, and `crypto/sha256` is embedded as a full executable
SHA-256 over byte lists so that group fingerprints can be computed
inside Lean.
-/

set_option maxRecDepth 10000

namespace Goru

/-! ## Bytes and strings

Go's `[]byte(s)` is the UTF-8 encoding of `s`; we embed it exactly so
that hashing string data matches the Go program byte for byte. -/

/-- UTF-8 encoding of a single character, as byte values. -/
def charUtf8 (c : Char) : List Nat :=
  let n := c.toNat
  if n < 0x80 then [n]
  else if n < 0x800 then
    [0xC0 ||| (n >>> 6), 0x80 ||| (n &&& 0x3F)]
  else if n < 0x10000 then
    [0xE0 ||| (n >>> 12), 0x80 ||| ((n >>> 6) &&& 0x3F), 0x80 ||| (n &&& 0x3F)]
  else
    [0xF0 ||| (n >>> 18), 0x80 ||| ((n >>> 12) &&& 0x3F),
     0x80 ||| ((n >>> 6) &&& 0x3F), 0x80 ||| (n &&& 0x3F)]

/-- The bytes of a string: Go's `[]byte(s)` (UTF-8). -/
def strBytes (s : String) : List Nat :=
  (s.data.map charUtf8).flatten

/-! ## SHA-256 (`crypto/sha256`)

A direct executable embedding of FIPS 180-4 SHA-256 over byte lists,
with 32-bit words represented as `Nat` reduced modulo `2 ^ 32`. -/

/-- 32-bit right rotation. -/
def rotr32 (n x : Nat) : Nat :=
  ((x >>> n) ||| (x <<< (32 - n))) % 4294967296

/-- 32-bit addition. -/
def add32 (a b : Nat) : Nat := (a + b) % 4294967296

/-- The 64 SHA-256 round constants. -/
def shaK : List Nat :=
  [1116352408, 1899447441, 3049323471, 3921009573, 961987163,
   1508970993, 2453635748, 2870763221, 3624381080, 310598401,
   607225278, 1426881987, 1925078388, 2162078206, 2614888103,
   3248222580, 3835390401, 4022224774, 264347078, 604807628,
   770255983, 1249150122, 1555081692, 1996064986, 2554220882,
   2821834349, 2952996808, 3210313671, 3336571891, 3584528711,
   113926993, 338241895, 666307205, 773529912, 1294757372,
   1396182291, 1695183700, 1986661051, 2177026350, 2456956037,
   2730485921, 2820302411, 3259730800, 3345764771, 3516065817,
   3600352804, 4094571909, 275423344, 430227734, 506948616,
   659060556, 883997877, 958139571, 1322822218, 1537002063,
   1747873779, 1955562222, 2024104815, 2227730452, 2361852424,
   2428436474, 2756734187, 3204031479, 3329325298]

/-- The SHA-256 initial hash value. -/
def shaH0 : List Nat :=
  [1779033703, 3144134277, 1013904242, 2773480762,
   1359893119, 2600822924, 528734635, 1541459225]

/-- A 64-bit length, big-endian, as 8 bytes. -/
def be64 (n : Nat) : List Nat :=
  [(n >>> 56) % 256, (n >>> 48) % 256, (n >>> 40) % 256, (n >>> 32) % 256,
   (n >>> 24) % 256, (n >>> 16) % 256, (n >>> 8) % 256, n % 256]

/-- SHA-256 padding: append `0x80`, zeros to 56 mod 64, and the
big-endian 64-bit bit length. -/
def shaPad (msg : List Nat) : List Nat :=
  let L := msg.length
  let k := (119 - (L % 64)) % 64
  msg ++ [0x80] ++ List.replicate k 0 ++ be64 (8 * L)

/-- Big-endian 32-bit words from bytes (length a multiple of 4). -/
def bytesToWords : List Nat → List Nat
  | a :: b :: c :: d :: rest =>
      (((a * 256 + b) * 256 + c) * 256 + d) :: bytesToWords rest
  | _ => []

/-- Split a word list into 16-word blocks (fuel-driven). -/
def toBlocks : Nat → List Nat → List (List Nat)
  | 0, _ => []
  | _, [] => []
  | fuel + 1, ws => ws.take 16 :: toBlocks fuel (ws.drop 16)

/-- One message-schedule word from the previous sixteen. -/
def scheduleStep (w : List Nat) (i : Nat) : Nat :=
  let w2 := w.getD (i - 2) 0
  let w7 := w.getD (i - 7) 0
  let w15 := w.getD (i - 15) 0
  let w16 := w.getD (i - 16) 0
  let s0 := (rotr32 7 w15) ^^^ (rotr32 18 w15) ^^^ (w15 >>> 3)
  let s1 := (rotr32 17 w2) ^^^ (rotr32 19 w2) ^^^ (w2 >>> 10)
  (w16 + s0 + w7 + s1) % 4294967296

/-- Extend the 16 block words by `fuel` schedule words starting at `i`. -/
def extendSchedule (w : List Nat) (i : Nat) : Nat → List Nat
  | 0 => w
  | fuel + 1 => extendSchedule (w ++ [scheduleStep w i]) (i + 1) fuel

/-- One SHA-256 compression round on the state `[a,b,c,d,e,f,g,h]`. -/
def compressRound (st : List Nat) (kw : Nat × Nat) : List Nat :=
  match st with
  | [a, b, c, d, e, f, g, h] =>
      let S1 := (rotr32 6 e) ^^^ (rotr32 11 e) ^^^ (rotr32 25 e)
      let ch := (e &&& f) ^^^ ((e ^^^ 4294967295) &&& g)
      let t1 := (h + S1 + ch + kw.1 + kw.2) % 4294967296
      let S0 := (rotr32 2 a) ^^^ (rotr32 13 a) ^^^ (rotr32 22 a)
      let maj := (a &&& b) ^^^ (a &&& c) ^^^ (b &&& c)
      let t2 := (S0 + maj) % 4294967296
      [(t1 + t2) % 4294967296, a, b, c, (d + t1) % 4294967296, e, f, g]
  | _ => st

/-- Process one 16-word block against a hash state of 8 words. -/
def processBlock (h : List Nat) (block : List Nat) : List Nat :=
  let w := extendSchedule block 16 48
  let st := (shaK.zip w).foldl compressRound h
  (h.zip st).map (fun p => (p.1 + p.2) % 4294967296)

/-- SHA-256 digest of a byte list, as the 8 final 32-bit words. -/
def sha256Words (msg : List Nat) : List Nat :=
  let padded := shaPad msg
  let ws := bytesToWords padded
  (toBlocks (ws.length + 1) ws).foldl processBlock shaH0

/-- SHA-256 digest of a byte list, as 32 bytes. -/
def sha256 (msg : List Nat) : List Nat :=
  ((sha256Words msg).map
    (fun w => [(w >>> 24) % 256, (w >>> 16) % 256, (w >>> 8) % 256, w % 256])).flatten

/-- A hexadecimal digit character (lower case), as `encoding/hex` uses. -/
def hexDigit (n : Nat) : Char :=
  if n < 10 then Char.ofNat (48 + n) else Char.ofNat (87 + n)

/-- `hex.EncodeToString`: lower-case hex of a byte list. -/
def hexEncode (bs : List Nat) : String :=
  String.mk ((bs.map (fun b => [hexDigit (b / 16), hexDigit (b % 16)])).flatten)

/-! ## Data model (`pkg/model`) -/

/-- `model.StackFrame`: one stack frame.  `line` is a Go `int`. -/
structure StackFrame where
  func : String
  file : String
  line : Int
deriving DecidableEq, Repr

/-- `model.StackTrace.String()`: frames joined by `"\n"`, each frame
rendered as `func` followed, when `file` is non-empty, by
`" file:line"`. -/
def traceString (tr : List StackFrame) : String :=
  String.intercalate "\n"
    (tr.map (fun f =>
      f.func ++ (if f.file ≠ "" then " " ++ f.file ++ ":" ++ toString f.line else "")))

/-- `model.Group`: a fold of goroutines sharing state and trace.
`GoroutineState` is a string type in the source; states are the string
constants `"running"`, `"runnable"`, `"blocked"`, `"waiting"`,
`"syscall"`, `"dead"`, `"copystack"`, `"preempted"`. -/
structure Group where
  id : String
  state : String
  count : Int
  waitDurations : List String
  trace : List StackFrame
  createdBy : Option StackFrame
deriving DecidableEq, Repr

/-- `model.Group.GenerateID`: the sha256 of the state bytes followed
directly by the canonical trace bytes, hex-encoded, first 16 chars. -/
def Group.GenerateID (g : Group) : String :=
  (hexEncode (sha256 (strBytes g.state ++ strBytes (traceString g.trace)))).take 16

/-- Modelled from the spec (§3, Group identity), for comparison with the
code: `hex(sha256(state ∥ "\n" ∥ canonicalized_trace))` truncated to 16
hex characters — with the `"\n"` separator the spec claims. -/
def specFingerprint (state : String) (tr : List StackFrame) : String :=
  (hexEncode (sha256 (strBytes state ++ strBytes "\n" ++ strBytes (traceString tr)))).take 16

/-- The spec fingerprint amended to drop the `"\n"` separator:
`hex(sha256(state ∥ canonicalized_trace))` truncated to 16 hex chars. -/
def specFingerprintNoSep (state : String) (tr : List StackFrame) : String :=
  (hexEncode (sha256 (strBytes state ++ strBytes (traceString tr)))).take 16

/-- `model.Snapshot`: host plus the group map, embedded as an
association list keyed by `GroupID` (`taken_at`, a wall-clock instant,
is not modelled). -/
structure Snapshot where
  host : String
  groups : List (String × Group)
deriving DecidableEq, Repr

/-- `model.NewSnapshot`. -/
def Snapshot.new (host : String) : Snapshot := ⟨host, []⟩

/-- The in-place update of an existing group performed by
`Snapshot.AddGoroutine`: bump the count of the entry with the given key
and append the wait duration when non-empty. -/
def bumpGroup (id w : String) : List (String × Group) → List (String × Group)
  | [] => []
  | (k, g) :: rest =>
      if k = id then
        (k, { g with
              count := g.count + 1,
              waitDurations :=
                if w ≠ "" then g.waitDurations ++ [w] else g.waitDurations }) :: rest
      else (k, g) :: bumpGroup id w rest

/-- The fresh group of count 1 that `Snapshot.AddGoroutine` builds and
fingerprints before looking it up in the snapshot. -/
def gAdd (state : String) (trace : List StackFrame) (waitDuration : String)
    (createdBy : Option StackFrame) : Group :=
  let g0 : Group :=
    { id := "", state := state, count := 1,
      waitDurations := if waitDuration ≠ "" then [waitDuration] else [],
      trace := trace, createdBy := createdBy }
  { g0 with id := g0.GenerateID }

/-- `model.Snapshot.AddGoroutine`: build a fresh group of count 1,
fingerprint it, and either merge into the existing group of that id or
insert it. -/
def Snapshot.AddGoroutine (s : Snapshot) (state : String) (trace : List StackFrame)
    (waitDuration : String) (createdBy : Option StackFrame) : Snapshot :=
  let g : Group := gAdd state trace waitDuration createdBy
  if (s.groups.lookup g.id).isSome then
    { s with groups := bumpGroup g.id waitDuration s.groups }
  else
    { s with groups := s.groups ++ [(g.id, g)] }

/-- `model.Snapshot.TotalGoroutines`: the sum of all group counts. -/
def Snapshot.TotalGoroutines (s : Snapshot) : Int :=
  s.groups.foldl (fun total p => total + p.2.count) 0

/-- `model.ChangeSet` (`timestamp` not modelled); `updated` is the
`GroupID → int` delta map as an association list. -/
structure ChangeSet where
  host : String
  added : List Group
  removed : List Group
  updated : List (String × Int)
deriving DecidableEq, Repr

/-- `model.NewChangeSet`. -/
def ChangeSet.new (host : String) : ChangeSet := ⟨host, [], [], []⟩

/-- `model.ChangeSet.IsEmpty`. -/
def ChangeSet.IsEmpty (c : ChangeSet) : Bool :=
  c.added.isEmpty && c.removed.isEmpty && c.updated.isEmpty

/-- One goroutine record as fed to `Snapshot.AddGoroutine` by the
parser: state, trace, wait duration, created-by frame. -/
structure GoRecord where
  state : String
  trace : List StackFrame
  wait : String
  createdBy : Option StackFrame
deriving DecidableEq, Repr

/-- A snapshot built by folding `Snapshot.AddGoroutine` over records,
exactly as every snapshot of the program is built. -/
def buildSnapshot (host : String) (recs : List GoRecord) : Snapshot :=
  recs.foldl (fun s r => s.AddGoroutine r.state r.trace r.wait r.createdBy)
    (Snapshot.new host)

/-- The per-entry well-formedness of a stored group: the map key is the
group's id and the id is the no-separator fingerprint of the group's
state and trace. -/
def goodEntry (p : String × Group) : Bool :=
  p.1 == p.2.id && p.2.id == specFingerprintNoSep p.2.state p.2.trace

theorem goodEntry_bumpGroup (id w : String) :
    ∀ l : List (String × Group), (∀ p ∈ l, goodEntry p = true) →
      ∀ p ∈ bumpGroup id w l, goodEntry p = true := by
  intro l
  induction l with
  | nil => intro _ p hp; simp [bumpGroup] at hp
  | cons q rest ih =>
      intro hall p hp
      obtain ⟨k, g⟩ := q
      rw [bumpGroup] at hp
      by_cases hk : k = id
      · rw [if_pos hk, List.mem_cons] at hp
        rcases hp with hp | hp
        · subst hp
          have := hall (k, g) (List.mem_cons_self _ _)
          simpa [goodEntry] using this
        · exact hall p (List.mem_cons_of_mem _ hp)
      · rw [if_neg hk, List.mem_cons] at hp
        rcases hp with hp | hp
        · subst hp; exact hall (k, g) (List.mem_cons_self _ _)
        · exact ih (fun q hq => hall q (List.mem_cons_of_mem _ hq)) p hp

theorem goodEntry_AddGoroutine (s : Snapshot) (st : String) (tr : List StackFrame)
    (w : String) (cb : Option StackFrame) (h : ∀ p ∈ s.groups, goodEntry p = true) :
    ∀ p ∈ (s.AddGoroutine st tr w cb).groups, goodEntry p = true := by
  have key : ∀ g : Group, g.id = specFingerprintNoSep g.state g.trace →
      ∀ p ∈ (if (s.groups.lookup g.id).isSome
             then { s with groups := bumpGroup g.id w s.groups }
             else { s with groups := s.groups ++ [(g.id, g)] } : Snapshot).groups,
        goodEntry p = true := by
    intro g hg
    by_cases hc : (s.groups.lookup g.id).isSome = true
    · simp only [if_pos hc]
      exact goodEntry_bumpGroup _ _ _ h
    · simp only [if_neg hc]
      intro p hp
      rw [List.mem_append, List.mem_singleton] at hp
      rcases hp with hp | hp
      · exact h p hp
      · subst hp
        simp [goodEntry, hg]
  have hrfl : s.AddGoroutine st tr w cb =
      (if (s.groups.lookup (gAdd st tr w cb).id).isSome
       then { s with groups := bumpGroup (gAdd st tr w cb).id w s.groups }
       else { s with groups := s.groups ++ [((gAdd st tr w cb).id, gAdd st tr w cb)] }
       : Snapshot) := rfl
  rw [hrfl]
  exact key (gAdd st tr w cb)
    (by simp only [gAdd, Group.GenerateID, specFingerprintNoSep])

theorem goodEntry_buildSnapshot (host : String) (recs : List GoRecord) :
    ∀ p ∈ (buildSnapshot host recs).groups, goodEntry p = true := by
  suffices h : ∀ (recs : List GoRecord) (s : Snapshot),
      (∀ p ∈ s.groups, goodEntry p = true) →
      ∀ p ∈ (recs.foldl
        (fun s r => s.AddGoroutine r.state r.trace r.wait r.createdBy) s).groups,
        goodEntry p = true by
    exact h recs (Snapshot.new host) (by intro p hp; simp [Snapshot.new] at hp)
  intro recs
  induction recs with
  | nil => intro s hs; simpa using hs
  | cons r rest ih =>
      intro s hs
      exact ih _ (goodEntry_AddGoroutine s r.state r.trace r.wait r.createdBy hs)

/-- Claim C1 (corrected, counterexample): the stored group for a single
`running` goroutine at `main.main /app/main.go:10` has id
`c9749f15a016ebcb` — the truncated sha256 of `state ∥ trace` with no
separator — while the spec's formula `hex(sha256(state ∥ "\n" ∥
canonicalized_trace))[:16]` gives `ea78f5908fa698e7`, so the claimed
equation fails on this snapshot. -/
theorem generateID_spec_counterexample :
    (((Snapshot.new "h1").AddGoroutine "running"
        [⟨"main.main", "/app/main.go", 10⟩] "" none).groups.map (fun p => p.2.id)
      = ["c9749f15a016ebcb"]) ∧
    specFingerprint "running" [⟨"main.main", "/app/main.go", 10⟩]
      = "ea78f5908fa698e7" ∧
    (((Snapshot.new "h1").AddGoroutine "running"
        [⟨"main.main", "/app/main.go", 10⟩] "" none).groups.all
      (fun p => p.2.id != specFingerprint p.2.state p.2.trace)) = true := by
  refine ⟨by decide, by decide, by decide⟩

/-- Claim C1 (amended): for every group stored in a snapshot built by
`AddGoroutine` (as all snapshots of the program are), the group's id —
which is also its map key — equals `hex(sha256(state ∥
canonicalized_trace))` truncated to the first 16 hex characters, with
no separator between the state and the canonicalized trace. -/
theorem generateID_amended (host : String) (recs : List GoRecord) :
    ((buildSnapshot host recs).groups.all
      (fun p => p.1 == p.2.id
        && p.2.id == specFingerprintNoSep p.2.state p.2.trace)) = true := by
  rw [List.all_eq_true]
  exact goodEntry_buildSnapshot host recs

/-! ## Association-list map lemmas

Go maps are embedded as association lists whose keys are unique by
construction; these lemmas relate `List.lookup` to membership. -/

/-- The keys of an embedded Go map are pairwise distinct. -/
def NodupKeys {β : Type} (l : List (String × β)) : Prop :=
  (l.map Prod.fst).Nodup

instance {β : Type} (l : List (String × β)) : Decidable (NodupKeys l) :=
  List.nodupDecidable _

theorem lookup_eq_none_iff {β : Type} (l : List (String × β)) (k : String) :
    l.lookup k = none ↔ k ∉ l.map Prod.fst := by
  induction l with
  | nil => simp [List.lookup]
  | cons p rest ih =>
      obtain ⟨k', v'⟩ := p
      by_cases hk : k = k'
      · subst hk; simp [List.lookup_cons]
      · simp [List.lookup_cons, beq_false_of_ne hk, hk, ih]

theorem lookup_isSome_of_mem {β : Type} {l : List (String × β)} {k : String} {v : β}
    (h : (k, v) ∈ l) : (l.lookup k).isSome = true := by
  induction l with
  | nil => simp at h
  | cons p rest ih =>
      obtain ⟨k', v'⟩ := p
      by_cases hk : k = k'
      · subst hk; simp [List.lookup_cons]
      · rw [List.mem_cons] at h
        rcases h with h | h
        · exact absurd (congrArg Prod.fst h) hk
        · rw [List.lookup_cons]
          simpa [beq_false_of_ne hk] using ih h

theorem mem_of_lookup_eq_some {β : Type} {l : List (String × β)} {k : String} {v : β}
    (h : l.lookup k = some v) : (k, v) ∈ l := by
  induction l with
  | nil => simp [List.lookup] at h
  | cons p rest ih =>
      obtain ⟨k', v'⟩ := p
      by_cases hk : k = k'
      · subst hk
        rw [List.lookup_cons] at h
        simp only [beq_self_eq_true] at h
        cases h
        exact List.mem_cons_self _ _
      · rw [List.lookup_cons] at h
        simp only [beq_false_of_ne hk] at h
        exact List.mem_cons_of_mem _ (ih h)

theorem lookup_eq_some_of_mem_nodup {β : Type} {l : List (String × β)}
    (hnd : NodupKeys l) {k : String} {v : β} (h : (k, v) ∈ l) :
    l.lookup k = some v := by
  induction l with
  | nil => simp at h
  | cons p rest ih =>
      obtain ⟨k', v'⟩ := p
      have hnd' := hnd
      rw [NodupKeys, List.map_cons, List.nodup_cons] at hnd'
      rw [List.mem_cons] at h
      rcases h with h | h
      · cases h
        simp [List.lookup_cons]
      · by_cases hk : k = k'
        · exfalso
          rw [hk] at h
          exact hnd'.1 (by simpa using List.mem_map_of_mem Prod.fst h)
        · rw [List.lookup_cons]
          simpa [beq_false_of_ne hk] using ih hnd'.2 h

/-- The keys of a `filterMap` that preserves keys form a sublist of the
original keys; hence key uniqueness is preserved. -/
theorem nodupKeys_filterMap {β γ : Type} (f : String × β → Option (String × γ))
    (hf : ∀ p q, f p = some q → q.1 = p.1) (l : List (String × β))
    (hnd : NodupKeys l) : NodupKeys (l.filterMap f) := by
  have hsub : ((l.filterMap f).map Prod.fst).Sublist (l.map Prod.fst) := by
    induction l with
    | nil => simp
    | cons p rest ih =>
        rw [List.filterMap_cons]
        cases hq : f p with
        | none =>
            rw [List.map_cons]
            exact (ih (by
              rw [NodupKeys, List.map_cons, List.nodup_cons] at hnd
              exact hnd.2)).cons _
        | some q =>
            rw [List.map_cons, List.map_cons, hf p q hq]
            exact (ih (by
              rw [NodupKeys, List.map_cons, List.nodup_cons] at hnd
              exact hnd.2)).cons₂ _
  exact hsub.nodup hnd

/-! ## Diff engine (`internal/diff`) -/

/-- The body of `Compare`'s loop over `new.Groups` for the `updated`
map: a key present in both snapshots with a changed count contributes
its delta. -/
def updEntry (od : Snapshot) (p : String × Group) : Option (String × Int) :=
  match od.groups.lookup p.1 with
  | none => none
  | some og =>
      if p.2.count ≠ og.count then some (p.1, p.2.count - og.count) else none

/-- `diff.Diff.Compare`: the change-set between an optional old snapshot
(Go nil pointer becomes `none`) and a new snapshot.  Removed groups come
from iterating `old.Groups`, added groups and count deltas from
iterating `new.Groups`. -/
def Compare (old : Option Snapshot) (nw : Snapshot) : ChangeSet :=
  match old with
  | none => { ChangeSet.new nw.host with added := nw.groups.map Prod.snd }
  | some od =>
      { host := nw.host
        removed := (od.groups.filter
          (fun p => (nw.groups.lookup p.1).isNone)).map Prod.snd
        added := (nw.groups.filter
          (fun p => (od.groups.lookup p.1).isNone)).map Prod.snd
        updated := nw.groups.filterMap (updEntry od) }

/-- Inversion for `updEntry`: a produced delta entry keeps the map key
and records a genuinely changed count. -/
theorem updEntry_eq_some {od : Snapshot} {p : String × Group} {q : String × Int}
    (h : updEntry od p = some q) :
    ∃ og, od.groups.lookup p.1 = some og ∧ p.2.count ≠ og.count ∧
      q = (p.1, p.2.count - og.count) := by
  cases hl : od.groups.lookup p.1
  · simp only [updEntry, hl] at h
    exact Option.noConfusion h
  · rename_i og
    simp only [updEntry, hl] at h
    by_cases hc : p.2.count ≠ og.count
    · rw [if_pos hc] at h
      exact ⟨og, rfl, hc, (Option.some.inj h).symm⟩
    · rw [if_neg hc] at h
      simp at h

/-- A snapshot's group map is well formed when every stored group's `id`
field equals its map key — true of every snapshot the program builds. -/
def WFGroups (s : Snapshot) : Prop :=
  ∀ p ∈ s.groups, p.2.id = p.1

instance (s : Snapshot) : Decidable (WFGroups s) :=
  List.decidableBAll _ _

/-- The `updated` entries preserve the map key. -/
theorem updEntry_key (od : Snapshot) (p : String × Group) (q : String × Int)
    (h : updEntry od p = some q) : q.1 = p.1 := by
  obtain ⟨og, _, _, hq⟩ := updEntry_eq_some h
  rw [hq]

/-- Claim C4: `Compare` on `(old, new)`.  With `old` absent every group
of `new` is added and nothing else; otherwise a key in `old` but not
`new` lands in `removed`, a key in `new` but not `old` in `added`, a key
in both with differing counts yields `updated[id] = new.count −
old.count` (hence every delta is non-zero), identical counts contribute
nothing, `added` and `removed` are id-disjoint, and no updated id
appears among the added or removed ids. -/
theorem Compare_spec (od nw : Snapshot)
    (hndn : NodupKeys nw.groups)
    (hwfo : WFGroups od) (hwfn : WFGroups nw) :
    ((Compare none nw).added = nw.groups.map Prod.snd ∧
      (Compare none nw).removed = [] ∧ (Compare none nw).updated = []) ∧
    (∀ id g, od.groups.lookup id = some g → nw.groups.lookup id = none →
      g ∈ (Compare (some od) nw).removed) ∧
    (∀ id g, nw.groups.lookup id = some g → od.groups.lookup id = none →
      g ∈ (Compare (some od) nw).added) ∧
    (∀ id go gn, od.groups.lookup id = some go → nw.groups.lookup id = some gn →
      go.count ≠ gn.count →
      (Compare (some od) nw).updated.lookup id = some (gn.count - go.count)) ∧
    (∀ id go gn, od.groups.lookup id = some go → nw.groups.lookup id = some gn →
      go.count = gn.count →
      (Compare (some od) nw).updated.lookup id = none ∧
      gn ∉ (Compare (some od) nw).added ∧ go ∉ (Compare (some od) nw).removed) ∧
    (∀ p ∈ (Compare (some od) nw).updated, p.2 ≠ 0) ∧
    (∀ ga ∈ (Compare (some od) nw).added, ∀ gr ∈ (Compare (some od) nw).removed,
      ga.id ≠ gr.id) ∧
    (∀ p ∈ (Compare (some od) nw).updated,
      (∀ ga ∈ (Compare (some od) nw).added, ga.id ≠ p.1) ∧
      (∀ gr ∈ (Compare (some od) nw).removed, gr.id ≠ p.1)) := by
  have hRrem : (Compare (some od) nw).removed =
      (od.groups.filter (fun p => (nw.groups.lookup p.1).isNone)).map Prod.snd := rfl
  have hRadd : (Compare (some od) nw).added =
      (nw.groups.filter (fun p => (od.groups.lookup p.1).isNone)).map Prod.snd := rfl
  have hRupd : (Compare (some od) nw).updated =
      nw.groups.filterMap (updEntry od) := rfl
  refine ⟨⟨rfl, rfl, rfl⟩, ?rem, ?add, ?upd, ?same, ?nz, ?disj, ?updDisj⟩
  case rem =>
    intro id g hlo hln
    rw [hRrem]
    have hmem : (id, g) ∈ od.groups := mem_of_lookup_eq_some hlo
    have : (id, g) ∈ od.groups.filter (fun p => (nw.groups.lookup p.1).isNone) :=
      List.mem_filter.mpr ⟨hmem, by simp [hln]⟩
    exact List.mem_map_of_mem Prod.snd this
  case add =>
    intro id g hln hlo
    rw [hRadd]
    have hmem : (id, g) ∈ nw.groups := mem_of_lookup_eq_some hln
    have : (id, g) ∈ nw.groups.filter (fun p => (od.groups.lookup p.1).isNone) :=
      List.mem_filter.mpr ⟨hmem, by simp [hlo]⟩
    exact List.mem_map_of_mem Prod.snd this
  case upd =>
    intro id go gn hlo hln hne
    have hmem : (id, gn) ∈ nw.groups := mem_of_lookup_eq_some hln
    have hf : updEntry od (id, gn) = some (id, gn.count - go.count) := by
      simp only [updEntry, hlo]
      rw [if_pos (Ne.symm hne)]
    have hmm : (id, gn.count - go.count) ∈ (Compare (some od) nw).updated := by
      rw [hRupd]
      exact List.mem_filterMap.mpr ⟨(id, gn), hmem, hf⟩
    have hnd : NodupKeys (Compare (some od) nw).updated := by
      rw [hRupd]
      exact nodupKeys_filterMap _ (updEntry_key od) nw.groups hndn
    exact lookup_eq_some_of_mem_nodup hnd hmm
  case same =>
    intro id go gn hlo hln heq
    refine ⟨?_, ?_, ?_⟩
    · rw [hRupd, lookup_eq_none_iff]
      intro hidmem
      obtain ⟨q, hq, hq1⟩ := List.mem_map.mp hidmem
      obtain ⟨p, hp, hfp⟩ := List.mem_filterMap.mp hq
      obtain ⟨og, hl, hcond, hqeq⟩ := updEntry_eq_some hfp
      have hp1 : p.1 = id := by rw [hqeq] at hq1; exact hq1
      have hx : nw.groups.lookup p.1 = some p.2 :=
        lookup_eq_some_of_mem_nodup hndn hp
      rw [hp1] at hx hl
      have hp2 : p.2 = gn := Option.some.inj (hx.symm.trans hln)
      have hog : og = go := Option.some.inj (hl.symm.trans hlo)
      apply hcond
      rw [hp2, hog, heq]
    · rw [hRadd]
      intro hmem
      obtain ⟨p, hp, hp2⟩ := List.mem_map.mp hmem
      have hpin := (List.mem_filter.mp hp).1
      have hpred := (List.mem_filter.mp hp).2
      have hpid : p.2.id = p.1 := hwfn p hpin
      have hgnid : gn.id = id := hwfn (id, gn) (mem_of_lookup_eq_some hln)
      rw [hp2] at hpid
      rw [hgnid] at hpid
      rw [hpid] at hlo
      simp [hlo] at hpred
    · rw [hRrem]
      intro hmem
      obtain ⟨p, hp, hp2⟩ := List.mem_map.mp hmem
      have hpin := (List.mem_filter.mp hp).1
      have hpred := (List.mem_filter.mp hp).2
      have hpid : p.2.id = p.1 := hwfo p hpin
      have hgoid : go.id = id := hwfo (id, go) (mem_of_lookup_eq_some hlo)
      rw [hp2] at hpid
      rw [hgoid] at hpid
      rw [hpid] at hln
      simp [hln] at hpred
  case nz =>
    intro p hp
    rw [hRupd] at hp
    obtain ⟨q, hq, hfq⟩ := List.mem_filterMap.mp hp
    obtain ⟨og, hl, hcond, hqeq⟩ := updEntry_eq_some hfq
    rw [hqeq]
    exact sub_ne_zero_of_ne hcond
  case disj =>
    intro ga hga gr hgr
    rw [hRadd] at hga
    rw [hRrem] at hgr
    obtain ⟨pa, hpa, hpa2⟩ := List.mem_map.mp hga
    obtain ⟨pr, hpr, hpr2⟩ := List.mem_map.mp hgr
    have hpain := (List.mem_filter.mp hpa).1
    have hpapred := (List.mem_filter.mp hpa).2
    have hprin := (List.mem_filter.mp hpr).1
    have hgaid : ga.id = pa.1 := by rw [← hpa2]; exact hwfn pa hpain
    have hgrid : gr.id = pr.1 := by rw [← hpr2]; exact hwfo pr hprin
    intro heq
    rw [hgaid, hgrid] at heq
    rw [heq] at hpapred
    have : (od.groups.lookup pr.1).isSome = true := by
      obtain ⟨k, v⟩ := pr
      exact lookup_isSome_of_mem hprin
    rw [Option.isNone_iff_eq_none.mp hpapred] at this
    simp at this
  case updDisj =>
    intro p hp
    rw [hRupd] at hp
    obtain ⟨q, hq, hfq⟩ := List.mem_filterMap.mp hp
    obtain ⟨og, hl, hcond, hqeq⟩ := updEntry_eq_some hfq
    have hkey : p.1 = q.1 := by rw [hqeq]
    have hod : (od.groups.lookup q.1).isSome = true := by rw [hl]; rfl
    have hnw : (nw.groups.lookup q.1).isSome = true :=
      lookup_isSome_of_mem hq
    constructor
    · intro ga hga heq
      rw [hRadd] at hga
      obtain ⟨pa, hpa, hpa2⟩ := List.mem_map.mp hga
      have hpain := (List.mem_filter.mp hpa).1
      have hpapred := (List.mem_filter.mp hpa).2
      have hgaid : ga.id = pa.1 := by rw [← hpa2]; exact hwfn pa hpain
      rw [hgaid, hkey] at heq
      rw [heq] at hpapred
      rw [Option.isNone_iff_eq_none.mp hpapred] at hod
      simp at hod
    · intro gr hgr heq
      rw [hRrem] at hgr
      obtain ⟨pr, hpr, hpr2⟩ := List.mem_map.mp hgr
      have hprin := (List.mem_filter.mp hpr).1
      have hprpred := (List.mem_filter.mp hpr).2
      have hgrid : gr.id = pr.1 := by rw [← hpr2]; exact hwfo pr hprin
      rw [hgrid, hkey] at heq
      rw [heq] at hprpred
      rw [Option.isNone_iff_eq_none.mp hprpred] at hnw
      simp at hnw

/-- Claim C4 witness: the theorem instantiated at the diff-test
snapshots `old = {g1 ↦ count 5, g2 ↦ count 3}`,
`new = {g1 ↦ count 10, g3 ↦ count 2}`. -/
theorem Compare_spec_witness :
    let od : Snapshot := ⟨"test-host",
      [("group1", ⟨"group1", "running", 5, [], [⟨"main.worker", "", 0⟩], none⟩),
       ("group2", ⟨"group2", "waiting", 3, [], [⟨"main.handler", "", 0⟩], none⟩)]⟩
    let nw : Snapshot := ⟨"test-host",
      [("group1", ⟨"group1", "running", 10, [], [⟨"main.worker", "", 0⟩], none⟩),
       ("group3", ⟨"group3", "blocked", 2, [], [⟨"main.processor", "", 0⟩], none⟩)]⟩
    NodupKeys nw.groups ∧ WFGroups od ∧ WFGroups nw ∧
      ((Compare (some od) nw).removed.map Group.id = ["group2"] ∧
       (Compare (some od) nw).added.map Group.id = ["group3"] ∧
       (Compare (some od) nw).updated = [("group1", 5)]) := by
  refine ⟨by decide, by decide, by decide, ?_⟩
  have h := Compare_spec
    ⟨"test-host",
      [("group1", ⟨"group1", "running", 5, [], [⟨"main.worker", "", 0⟩], none⟩),
       ("group2", ⟨"group2", "waiting", 3, [], [⟨"main.handler", "", 0⟩], none⟩)]⟩
    ⟨"test-host",
      [("group1", ⟨"group1", "running", 10, [], [⟨"main.worker", "", 0⟩], none⟩),
       ("group3", ⟨"group3", "blocked", 2, [], [⟨"main.processor", "", 0⟩], none⟩)]⟩
    (by decide) (by decide) (by decide)
  exact ⟨by decide, by decide, by decide⟩

/-- Claim C8: diffing a snapshot against itself yields an empty
change-set. -/
theorem Compare_self_empty (S : Snapshot) (hnd : NodupKeys S.groups) :
    (Compare (some S) S).IsEmpty = true := by
  have hrem : (S.groups.filter (fun p => (S.groups.lookup p.1).isNone)) = [] := by
    rw [List.filter_eq_nil_iff]
    intro p hp
    obtain ⟨k, v⟩ := p
    have hsome := lookup_isSome_of_mem hp
    intro hno
    rw [Option.isNone_iff_eq_none.mp hno] at hsome
    simp at hsome
  have hupd : (S.groups.filterMap (fun p =>
      match S.groups.lookup p.1 with
      | none => none
      | some og =>
          if p.2.count ≠ og.count then some (p.1, p.2.count - og.count)
          else none)) = [] := by
    rw [List.filterMap_eq_nil_iff]
    intro p hp
    have hl : S.groups.lookup p.1 = some p.2 := by
      obtain ⟨k, v⟩ := p
      exact lookup_eq_some_of_mem_nodup hnd hp
    rw [hl]
    simp
  show ((Compare (some S) S).added.isEmpty &&
        (Compare (some S) S).removed.isEmpty &&
        (Compare (some S) S).updated.isEmpty) = true
  have h1 : (Compare (some S) S).added = [] := by
    show (S.groups.filter (fun p => (S.groups.lookup p.1).isNone)).map Prod.snd = []
    rw [hrem, List.map_nil]
  have h2 : (Compare (some S) S).removed = [] := by
    show (S.groups.filter (fun p => (S.groups.lookup p.1).isNone)).map Prod.snd = []
    rw [hrem, List.map_nil]
  have h3 : (Compare (some S) S).updated = [] := hupd
  rw [h1, h2, h3]
  rfl

/-- Claim C8 witness: the theorem applied to a concrete one-group
snapshot. -/
theorem Compare_self_empty_witness :
    let S : Snapshot := ⟨"test-host",
      [("group1", ⟨"group1", "running", 5, [], [⟨"main.worker", "", 0⟩], none⟩)]⟩
    NodupKeys S.groups ∧ (Compare (some S) S).IsEmpty = true := by
  exact ⟨by decide, Compare_self_empty _ (by decide)⟩

/-! ## Snapshot store (`internal/store`)

The store bundle `storeData` holds four maps; Go `error` values are
embedded as `Option String` (their `Error()` text, `none` for nil), so
an `errors` entry can be present-but-nil, as `UpdateSnapshot` leaves it.
The atomic pointer swap makes every operation a pure function from
bundle to bundle; `UpdateError` additionally returns whether
subscribers were notified. -/

/-- `store.storeData`: registered hosts, snapshots, latest change-sets
and latest error per host. -/
structure StoreData where
  hosts : List String
  snapshots : List (String × Snapshot)
  changes : List (String × ChangeSet)
  errors : List (String × Option String)
deriving DecidableEq, Repr

/-- `store.New`: the empty bundle. -/
def StoreData.init : StoreData := ⟨[], [], [], []⟩

/-- Go map assignment `m[k] = v` on an association list: replace the
entry or append it. -/
def setk {β : Type} (m : List (String × β)) (k : String) (v : β) :
    List (String × β) :=
  match m with
  | [] => [(k, v)]
  | (k', v') :: rest => if k' = k then (k, v) :: rest else (k', v') :: setk rest k v

theorem lookup_setk_self {β : Type} (m : List (String × β)) (k : String) (v : β) :
    (setk m k v).lookup k = some v := by
  induction m with
  | nil => simp [setk, List.lookup_cons]
  | cons p rest ih =>
      obtain ⟨k', v'⟩ := p
      by_cases hk : k' = k
      · rw [setk, if_pos hk, List.lookup_cons]
        simp
      · rw [setk, if_neg hk, List.lookup_cons]
        have : (k == k') = false := beq_false_of_ne (fun h => hk h.symm)
        simp only [this]
        exact ih

theorem lookup_setk_ne {β : Type} (m : List (String × β)) {k' k : String}
    (h : k' ≠ k) (v : β) : (setk m k v).lookup k' = m.lookup k' := by
  induction m with
  | nil => simp [setk, List.lookup_cons, beq_false_of_ne h]
  | cons p rest ih =>
      obtain ⟨k₀, v₀⟩ := p
      by_cases hk : k₀ = k
      · rw [setk, if_pos hk, List.lookup_cons, List.lookup_cons, hk]
        simp only [beq_false_of_ne h]
      · rw [setk, if_neg hk, List.lookup_cons, List.lookup_cons]
        cases hkk : k' == k₀
        · exact ih
        · rfl

/-- `store.Store.RegisterHosts`: union the given hosts into `hosts`,
leaving the other maps untouched. -/
def RegisterHosts (s : StoreData) (hosts : List String) : StoreData :=
  { s with hosts :=
      hosts.foldl (fun acc h => if h ∈ acc then acc else acc ++ [h]) s.hosts }

/-- `store.Store.UpdateSnapshot`: set `snapshots[snap.host]`; record the
change-set only when non-nil and non-empty; set `errors[snap.host]` to
nil (the entry stays present, holding nil). -/
def UpdateSnapshot (s : StoreData) (snapshot : Snapshot)
    (changeSet : Option ChangeSet) : StoreData :=
  let s1 := { s with snapshots := setk s.snapshots snapshot.host snapshot }
  let s2 :=
    match changeSet with
    | some c =>
        if !c.IsEmpty then { s1 with changes := setk s1.changes snapshot.host c }
        else s1
    | none => s1
  { s2 with errors := setk s2.errors snapshot.host none }

/-- `store.Store.UpdateError`: record the error for a host unless it is
semantically unchanged; the returned flag is whether subscribers were
notified. -/
def UpdateError (s : StoreData) (host : String) (err : Option String) :
    StoreData × Bool :=
  match s.errors.lookup host with
  | some currentErr =>
      if currentErr.isSome && err.isSome && currentErr == err then (s, false)
      else if currentErr.isNone && err.isNone then (s, false)
      else ({ s with errors := setk s.errors host err }, true)
  | none =>
      if err.isNone then (s, false)
      else ({ s with errors := setk s.errors host err }, true)

/-- `store.Store.GetErrors`: only hosts with an actual (non-nil) error. -/
def GetErrors (s : StoreData) : List (String × Option String) :=
  s.errors.filter (fun p => p.2.isSome)

/-- `store.Store.GetFetchingHosts`: registered hosts with no snapshot
and no error (or a nil error entry). -/
def GetFetchingHosts (s : StoreData) : List String :=
  s.hosts.filter (fun host =>
    !(s.snapshots.lookup host).isSome &&
    (match s.errors.lookup host with
     | none => true
     | some e => e.isNone))

/-- The store's write operations, for reachability statements. -/
inductive StoreOp where
  | registerHosts (hosts : List String)
  | updateSnapshot (snap : Snapshot) (cs : Option ChangeSet)
  | updateError (host : String) (err : Option String)
deriving Repr

/-- Apply one write operation to a bundle. -/
def applyOp (s : StoreData) : StoreOp → StoreData
  | .registerHosts hs => RegisterHosts s hs
  | .updateSnapshot snap cs => UpdateSnapshot s snap cs
  | .updateError h e => (UpdateError s h e).1

/-- Run a sequence of write operations from a bundle. -/
def runOps (s : StoreData) (ops : List StoreOp) : StoreData :=
  ops.foldl applyOp s

/-- `errors[host]` is null or absent: the slot is missing or holds nil. -/
def errNullOrAbsent (s : StoreData) (host : String) : Prop :=
  s.errors.lookup host = none ∨ s.errors.lookup host = some none

instance (s : StoreData) (host : String) : Decidable (errNullOrAbsent s host) :=
  inferInstanceAs (Decidable (_ ∨ _))

/-- The spec's store invariant: a host with a snapshot has a
null-or-absent error slot. -/
def SnapErrInvariant (s : StoreData) : Prop :=
  ∀ host, (s.snapshots.lookup host).isSome = true → errNullOrAbsent s host

/-- Field-level description of `UpdateSnapshot`'s result bundle. -/
theorem UpdateSnapshot_proj (s : StoreData) (snap : Snapshot)
    (change : Option ChangeSet) :
    (UpdateSnapshot s snap change).hosts = s.hosts ∧
    (UpdateSnapshot s snap change).snapshots = setk s.snapshots snap.host snap ∧
    (UpdateSnapshot s snap change).errors = setk s.errors snap.host none ∧
    (UpdateSnapshot s snap change).changes =
      (match change with
       | some c => if !c.IsEmpty then setk s.changes snap.host c else s.changes
       | none => s.changes) := by
  cases change with
  | none => exact ⟨rfl, rfl, rfl, rfl⟩
  | some c =>
      cases hce : c.IsEmpty with
      | true =>
          unfold UpdateSnapshot
          simp [hce]
      | false =>
          unfold UpdateSnapshot
          simp [hce]

/-- Claim C5: after `UpdateSnapshot(snap, change)`, the host's snapshot
slot holds `snap`, the change slot holds `change` exactly when it is
non-null and non-empty (otherwise it is unchanged), the host's error
slot holds nil (hence is null-or-absent), and every slot of every other
host, and the host set, are unchanged. -/
theorem UpdateSnapshot_spec (s : StoreData) (snap : Snapshot)
    (change : Option ChangeSet) (h : String) :
    (UpdateSnapshot s snap change).hosts = s.hosts ∧
    (if h = snap.host then
       (UpdateSnapshot s snap change).snapshots.lookup h = some snap ∧
       (UpdateSnapshot s snap change).changes.lookup h =
         (match change with
          | some c => if c.IsEmpty then s.changes.lookup h else some c
          | none => s.changes.lookup h) ∧
       (UpdateSnapshot s snap change).errors.lookup h = some none ∧
       errNullOrAbsent (UpdateSnapshot s snap change) h
     else
       (UpdateSnapshot s snap change).snapshots.lookup h = s.snapshots.lookup h ∧
       (UpdateSnapshot s snap change).changes.lookup h = s.changes.lookup h ∧
       (UpdateSnapshot s snap change).errors.lookup h = s.errors.lookup h) := by
  obtain ⟨hh, hs, he, hc⟩ := UpdateSnapshot_proj s snap change
  refine ⟨hh, ?_⟩
  split
  · rename_i heq
    subst heq
    refine ⟨by rw [hs]; exact lookup_setk_self _ _ _, ?_, ?_, ?_⟩
    · rw [hc]
      cases change with
      | none => rfl
      | some c =>
          cases hce : c.IsEmpty with
          | true => simp [hce]
          | false => simp [hce, lookup_setk_self]
    · rw [he]; exact lookup_setk_self _ _ _
    · right
      rw [he]; exact lookup_setk_self _ _ _
  · rename_i hne
    refine ⟨by rw [hs]; exact lookup_setk_ne _ hne _, ?_,
      by rw [he]; exact lookup_setk_ne _ hne _⟩
    rw [hc]
    cases change with
    | none => rfl
    | some c =>
        cases hce : c.IsEmpty with
        | true => simp [hce]
        | false => simp [hce, lookup_setk_ne _ hne]

/-- Modelled from the spec (§4.3, `update_error`): the error for `host`
semantically changed — compared by textual form when both the stored
error and the new one are non-null, and by presence otherwise, where a
stored slot that is absent or holds nil counts as null. -/
def semanticallyChanged (s : StoreData) (host : String) (err : Option String) :
    Bool :=
  match s.errors.lookup host with
  | some (some t) =>
      match err with
      | some u => t != u
      | none => true
  | some none =>
      match err with
      | some _ => true
      | none => false
  | none =>
      match err with
      | some _ => true
      | none => false

/-- `UpdateError`'s three early-return guards amount to: record and
notify exactly when the error semantically changed. -/
theorem UpdateError_eq (s : StoreData) (host : String) (err : Option String) :
    UpdateError s host err =
      (if semanticallyChanged s host err
       then ({ s with errors := setk s.errors host err }, true)
       else (s, false)) := by
  rcases hl : s.errors.lookup host with _ | cur
  · cases err with
    | none => simp [UpdateError, semanticallyChanged, hl]
    | some e => simp [UpdateError, semanticallyChanged, hl]
  · cases cur with
    | none =>
        cases err with
        | none => simp [UpdateError, semanticallyChanged, hl]
        | some e => simp [UpdateError, semanticallyChanged, hl]
    | some t =>
        cases err with
        | none => simp [UpdateError, semanticallyChanged, hl]
        | some u =>
            by_cases hte : t = u
            · subst hte
              simp [UpdateError, semanticallyChanged, hl]
            · simp [UpdateError, semanticallyChanged, hl, hte,
                beq_false_of_ne hte]

/-- Claim C9: `UpdateError` stores the error and notifies exactly when
the error semantically changed; otherwise the whole bundle is unchanged
and no notification is issued.  On change, only the host's error slot
changes. -/
theorem UpdateError_spec (s : StoreData) (host : String) (err : Option String)
    (h' : String) :
    (UpdateError s host err =
      (if semanticallyChanged s host err
       then ({ s with errors := setk s.errors host err }, true)
       else (s, false))) ∧
    ((UpdateError s host err).1.snapshots = s.snapshots ∧
     (UpdateError s host err).1.changes = s.changes ∧
     (UpdateError s host err).1.hosts = s.hosts) ∧
    ((UpdateError s host err).2 = semanticallyChanged s host err) ∧
    (if h' = host then
       (UpdateError s host err).1.errors.lookup h' =
         (if semanticallyChanged s host err then some err
          else s.errors.lookup h')
     else (UpdateError s host err).1.errors.lookup h' = s.errors.lookup h') := by
  have hmain := UpdateError_eq s host err
  refine ⟨hmain, ?_, ?_, ?_⟩
  · rw [hmain]
    cases hch : semanticallyChanged s host err <;> simp
  · rw [hmain]
    cases hch : semanticallyChanged s host err <;> simp
  · rw [hmain]
    cases hch : semanticallyChanged s host err with
    | false => simp [hch]
    | true =>
        split
        · rename_i heq
          subst heq
          simp [hch, lookup_setk_self]
        · rename_i hne
          simp [hch, lookup_setk_ne _ hne]

/-- Claim C7: the fetching set is exactly the registered hosts with no
snapshot and a null-or-absent error slot; concretely, after registering
`[a, b, c]`, committing a snapshot for `a` and recording an error for
`b`, the fetching set is `{c}`. -/
theorem GetFetchingHosts_spec :
    (∀ (s : StoreData) (h : String),
      h ∈ GetFetchingHosts s ↔
        h ∈ s.hosts ∧ s.snapshots.lookup h = none ∧ errNullOrAbsent s h) ∧
    GetFetchingHosts (runOps StoreData.init
      [.registerHosts ["a", "b", "c"],
       .updateSnapshot ⟨"a", []⟩ none,
       .updateError "b" (some "connection refused")]) = ["c"] := by
  constructor
  · intro s h
    rw [GetFetchingHosts, List.mem_filter]
    constructor
    · rintro ⟨hmem, hpred⟩
      refine ⟨hmem, ?_, ?_⟩
      · rcases hsn : s.snapshots.lookup h with _ | v
        · exact hsn.symm.trans hsn
        · rw [hsn] at hpred
          simp at hpred
      · rcases herr : s.errors.lookup h with _ | e
        · exact Or.inl herr
        · cases e with
          | none => exact Or.inr herr
          | some t =>
              rw [herr] at hpred
              simp at hpred
    · rintro ⟨hmem, hsn, herr⟩
      refine ⟨hmem, ?_⟩
      rw [hsn]
      rcases herr with herr | herr <;> rw [herr] <;> rfl
  · decide

/-- Claim C10: `GetErrors` returns exactly the hosts whose stored error
value is non-nil; a host whose slot holds nil (as `UpdateSnapshot`
leaves it) never appears. -/
theorem GetErrors_spec (s : StoreData) (host : String)
    (hnd : NodupKeys s.errors) :
    ((GetErrors s).lookup host).isSome = true ↔
      (∃ e, s.errors.lookup host = some (some e)) := by
  constructor
  · intro h
    obtain ⟨v, hv⟩ := Option.isSome_iff_exists.mp h
    have hmem : (host, v) ∈ GetErrors s := mem_of_lookup_eq_some hv
    have hin := (List.mem_filter.mp hmem).1
    have hpred := (List.mem_filter.mp hmem).2
    have hv2 : v.isSome = true := hpred
    obtain ⟨e, he⟩ := Option.isSome_iff_exists.mp hv2
    refine ⟨e, ?_⟩
    rw [lookup_eq_some_of_mem_nodup hnd hin, he]
  · rintro ⟨e, he⟩
    have hmem : (host, some e) ∈ s.errors := mem_of_lookup_eq_some he
    have hmemf : (host, some e) ∈ GetErrors s :=
      List.mem_filter.mpr ⟨hmem, by simp⟩
    rw [lookup_eq_some_of_mem_nodup ?_ hmemf]
    · rfl
    · rw [NodupKeys]
      have hsub : ((GetErrors s).map Prod.fst).Sublist (s.errors.map Prod.fst) :=
        (List.filter_sublist _).map Prod.fst
      exact hsub.nodup hnd

/-- Claim C10 witness: a host whose error was recorded and then cleared
by a snapshot commit (leaving a nil entry) does not appear in
`GetErrors`. -/
theorem GetErrors_spec_witness :
    let s := runOps StoreData.init
      [.updateError "a" (some "boom"), .updateSnapshot ⟨"a", []⟩ none]
    NodupKeys s.errors ∧
      (((GetErrors s).lookup "a").isSome = true ↔
        (∃ e, s.errors.lookup "a" = some (some e))) := by
  exact ⟨by decide, GetErrors_spec _ "a" (by decide)⟩

/-- The side condition under which the spec's snapshot/error invariant
is actually preserved: an `update_error` with a non-null error may only
target a host that currently has no snapshot. -/
def okOp (s : StoreData) : StoreOp → Bool
  | .updateError host (some _) => !(s.snapshots.lookup host).isSome
  | _ => true

/-- `okOp` holding along a whole operation sequence. -/
def goodOps : StoreData → List StoreOp → Bool
  | _, [] => true
  | s, op :: rest => okOp s op && goodOps (applyOp s op) rest

/-- Claim C6 counterexample: committing a snapshot for host `a` and then
recording a non-null error for `a` yields a reachable store state where
`a` is present in `snapshots` yet `errors[a]` holds a non-null error, so
the claimed invariant fails. -/
theorem snapErrInvariant_counterexample :
    ((runOps StoreData.init
        [.updateSnapshot ⟨"a", []⟩ none,
         .updateError "a" (some "boom")]).snapshots.lookup "a").isSome = true ∧
    (runOps StoreData.init
        [.updateSnapshot ⟨"a", []⟩ none,
         .updateError "a" (some "boom")]).errors.lookup "a"
      = some (some "boom") ∧
    ¬ SnapErrInvariant (runOps StoreData.init
        [.updateSnapshot ⟨"a", []⟩ none,
         .updateError "a" (some "boom")]) := by
  refine ⟨by decide, by decide, ?_⟩
  intro hInv
  have h := hInv "a" (by decide)
  exact absurd h (by decide)

theorem snapErrInvariant_run (ops : List StoreOp) :
    ∀ s : StoreData, SnapErrInvariant s → goodOps s ops = true →
      SnapErrInvariant (runOps s ops) := by
  induction ops with
  | nil => intro s hs _; exact hs
  | cons op rest ih =>
      intro s hs hgood
      rw [goodOps, Bool.and_eq_true] at hgood
      apply ih (applyOp s op) ?_ hgood.2
      have hok := hgood.1
      cases op with
      | registerHosts hosts =>
          intro host hsm
          exact hs host hsm
      | updateSnapshot snap cs =>
          obtain ⟨_, hsn, he, _⟩ := UpdateSnapshot_proj s snap cs
          intro host hsm
          have hlk : (applyOp s (.updateSnapshot snap cs)).errors.lookup host =
              (setk s.errors snap.host none).lookup host := by
            show (UpdateSnapshot s snap cs).errors.lookup host = _
            rw [he]
          by_cases hh : host = snap.host
          · refine Or.inr ?_
            rw [hlk, hh]
            exact lookup_setk_self _ _ _
          · have hsm' : (s.snapshots.lookup host).isSome = true := by
              have hsm2 : (UpdateSnapshot s snap cs).snapshots.lookup host
                  = s.snapshots.lookup host := by
                rw [hsn]
                exact lookup_setk_ne _ hh _
              have hsm3 : ((UpdateSnapshot s snap cs).snapshots.lookup host).isSome
                  = true := hsm
              rw [hsm2] at hsm3
              exact hsm3
            rcases hs host hsm' with h0 | h0
            · exact Or.inl (by rw [hlk, lookup_setk_ne _ hh, h0])
            · exact Or.inr (by rw [hlk, lookup_setk_ne _ hh, h0])
      | updateError h' err =>
          have herr : applyOp s (.updateError h' err) = (UpdateError s h' err).1 := rfl
          rw [herr, UpdateError_eq]
          cases hch : semanticallyChanged s h' err with
          | false =>
              simp only [hch, Bool.false_eq_true, if_false]
              exact hs
          | true =>
              simp only [hch, if_true]
              intro host hsm
              have hsm' : (s.snapshots.lookup host).isSome = true := hsm
              by_cases hh : host = h'
              · subst hh
                cases err with
                | none => exact Or.inr (lookup_setk_self _ _ _)
                | some e =>
                    exfalso
                    simp only [okOp] at hok
                    rw [hsm'] at hok
                    exact Bool.noConfusion hok
              · have hlk : (setk s.errors h' err).lookup host = s.errors.lookup host :=
                  lookup_setk_ne _ hh _
                rcases hs host hsm' with h0 | h0
                · exact Or.inl (hlk.trans h0)
                · exact Or.inr (hlk.trans h0)

/-- Claim C6 (amended): in every store state reachable by a sequence of
`register_hosts`, `update_snapshot` and `update_error` operations in
which every `update_error` carrying a non-null error targets a host that
has no snapshot at that moment, a host's presence in `snapshots`
guarantees `errors[host]` is null-or-absent.  (An `update_error` with a
non-null error for a snapshot-holding host breaks the invariant, as the
counterexample shows.) -/
theorem snapErrInvariant_amended (ops : List StoreOp)
    (h : goodOps StoreData.init ops = true) :
    SnapErrInvariant (runOps StoreData.init ops) := by
  apply snapErrInvariant_run ops StoreData.init ?_ h
  intro host hsm
  simp [StoreData.init, List.lookup] at hsm

/-- Claim C6 witness: a concrete well-ordered sequence — register, fail
before the first snapshot, then commit snapshots — satisfies the side
condition, and the invariant holds in the resulting state. -/
theorem snapErrInvariant_amended_witness :
    goodOps StoreData.init
      [.registerHosts ["a", "b"],
       .updateError "b" (some "connection refused"),
       .updateSnapshot ⟨"b", []⟩ none,
       .updateSnapshot ⟨"a", []⟩ (some (ChangeSet.new "a"))] = true ∧
    SnapErrInvariant (runOps StoreData.init
      [.registerHosts ["a", "b"],
       .updateError "b" (some "connection refused"),
       .updateSnapshot ⟨"b", []⟩ none,
       .updateSnapshot ⟨"a", []⟩ (some (ChangeSet.new "a"))]) := by
  exact ⟨by decide, snapErrInvariant_amended _ (by decide)⟩

/-! ## Parser (`internal/parser`)

The parser's regular expressions are embedded as character-level
matchers with the same (leftmost, lazy/greedy) semantics RE2 gives
them on the parser's anchored patterns. -/

/-- RE2 `\w`: ASCII letters, digits and underscore. -/
def isWordChar (c : Char) : Bool := c.isAlphanum || c == '_'

/-- RE2 `\s`: tab, newline, form feed, carriage return, space. -/
def isSpaceRE (c : Char) : Bool :=
  c == ' ' || c == '\t' || c == '\n' || c == '\x0c' || c == '\r'

/-- `unicode.IsSpace` on the Latin-1 range, as `strings.TrimSpace`
uses. -/
def isGoSpace (c : Char) : Bool :=
  c == ' ' || c == '\t' || c == '\n' || c == '\x0b' || c == '\x0c' ||
  c == '\r' || c.toNat == 0x85 || c.toNat == 0xa0

/-- `strings.TrimSpace`. -/
def trimSpace (s : String) : String :=
  String.mk (((s.data.dropWhile isGoSpace).reverse.dropWhile isGoSpace).reverse)

/-- The optional `, <M> minute[s]` tail of a goroutine header's bracket
content: `(?:, (\d+ minutes?))?` followed by the closing bracket.
Returns the captured wait string when the remaining content is exactly
this tail. -/
def tryWaitTail : List Char → Option String
  | ',' :: ' ' :: rest =>
      let d := rest.takeWhile Char.isDigit
      if d.isEmpty then none
      else
        let after := rest.drop d.length
        if after = " minutes".data then some (String.mk (d ++ " minutes".data))
        else if after = " minute".data then some (String.mk (d ++ " minute".data))
        else none
  | _ => none

/-- The lazy `([\w\s,]+?)(?:, (\d+ minutes?))?` split of the bracket
content: growing the state capture one character at a time (each
checked against the class `[\w\s,]`), at each length first trying the
minutes tail, then the end of the content. -/
def splitStateWait : List Char → List Char → Option (String × String)
  | _, [] => none
  | seen, c :: rs =>
      if !(isWordChar c || isSpaceRE c || c == ',') then none
      else
        match tryWaitTail rs with
        | some w => some (String.mk (seen ++ [c]), w)
        | none =>
            if rs.isEmpty then some (String.mk (seen ++ [c]), "")
            else splitStateWait (seen ++ [c]) rs

/-- `goroutineHeaderRe`:
`^goroutine (\d+) \[([\w\s,]+?)(?:, (\d+ minutes?))?\]:$`.  Returns the
state capture and the wait capture (`""` when the optional group is
absent, as Go's submatch does); the goroutine number is not used by the
parser. -/
def goroutineHeaderMatch (line : String) : Option (String × String) :=
  let cs := line.data
  if ("goroutine ".data).isPrefixOf cs then
    let rest := cs.drop 10
    let digits := rest.takeWhile Char.isDigit
    if digits.isEmpty then none
    else
      match rest.drop digits.length with
      | ' ' :: '[' :: rest3 =>
          let content := rest3.takeWhile (fun c => c != ']')
          if rest3.drop content.length = ']' :: ':' :: [] then
            splitStateWait [] content
          else none
      | _ => none
  else none

/-- The numeric value of a digit run, as `strconv.Atoi` reads it. -/
def digitsToNat (ds : List Char) : Nat :=
  ds.foldl (fun acc c => acc * 10 + (c.toNat - 48)) 0

/-- The lazy `(.+?):(\d+)(?:\s|$)` search of `fileLineRe` after the
leading whitespace: extend the first capture one character at a time,
at each length checking for `:` followed by digits followed by
whitespace or the end. -/
def fileLineSearch : List Char → List Char → Option (String × Nat)
  | _, [] => none
  | g1, c :: rs =>
      if c == '\n' then none
      else
        let hit : Option (String × Nat) :=
          match rs with
          | ':' :: ds =>
              let d := ds.takeWhile Char.isDigit
              if d.isEmpty then none
              else
                match ds.drop d.length with
                | [] => some (String.mk (g1 ++ [c]), digitsToNat d)
                | a :: _ =>
                    if isSpaceRE a then some (String.mk (g1 ++ [c]), digitsToNat d)
                    else none
          | _ => none
        match hit with
        | some r => some r
        | none => fileLineSearch (g1 ++ [c]) rs

/-- Backtracking over the greedy `^\s+` of `fileLineRe`: try the
longest whitespace prefix first, shrinking down to one character. -/
def fileLineTry (cs : List Char) : Nat → Option (String × Nat)
  | 0 => none
  | w + 1 =>
      match fileLineSearch [] (cs.drop (w + 1)) with
      | some r => some r
      | none => fileLineTry cs w

/-- `fileLineRe` (and the identical `createdAtRe`):
`^\s+(.+?):(\d+)(?:\s|$)` — the file capture and the line number. -/
def fileLineMatch (line : String) : Option (String × Nat) :=
  let cs := line.data
  fileLineTry cs (cs.takeWhile isSpaceRE).length

/-- `createdByRe`: `^created by (.+)$`. -/
def createdByMatch (line : String) : Option String :=
  let cs := line.data
  if ("created by ".data).isPrefixOf cs then
    let rest := cs.drop 11
    if rest.isEmpty || rest.any (fun c => c == '\n') then none
    else some (String.mk rest)
  else none

/-- `strings.Index`: the first occurrence of a pattern, if any. -/
def firstIndexOf : List Char → List Char → Option Nat
  | hay, pat =>
      if pat.isPrefixOf hay then some 0
      else
        match hay with
        | [] => none
        | _ :: t => (firstIndexOf t pat).map (· + 1)

/-- `Parse`'s removal of a trailing `" in goroutine N"` from a
created-by function, kept only when the marker is not at index 0. -/
def stripInGoroutine (s : String) : String :=
  match firstIndexOf s.data " in goroutine ".data with
  | some idx => if idx > 0 then String.mk (s.data.take idx) else s
  | none => s

/-- `Parser.extractFunctionName`, embedding `funcRe`
`^([^(]+(?:\(\*[^)]+\))?[^(]*)(?:\(|$)` (whose greedy pieces never
backtrack) with its `strings.Index` fallback. -/
def extractFunctionName (line0 : String) : String :=
  let l := (trimSpace line0).data
  match l with
  | [] => ""
  | c :: _ =>
      if c == '(' then String.mk l
      else
        let r1 := l.takeWhile (fun ch => ch != '(')
        let g1 :=
          match l.drop r1.length with
          | '(' :: '*' :: rs =>
              let inner := rs.takeWhile (fun ch => ch != ')')
              if inner.isEmpty || (rs.drop inner.length).isEmpty then r1
              else
                r1 ++ '(' :: '*' ::
                  (inner ++ [')'] ++ (rs.drop (inner.length + 1)).takeWhile
                    (fun ch => ch != '('))
          | _ => r1
        trimSpace (String.mk g1)

/-- `Parser.parseState`: trim, take the part before the first comma,
and classify. -/
def parseState (stateStr : String) : String :=
  let t := trimSpace stateStr
  let s := String.mk (t.data.takeWhile (fun c => c != ','))
  if s == "running" then "running"
  else if s == "runnable" then "runnable"
  else if s == "syscall" then "syscall"
  else if s == "chan receive" || s == "chan send" || s == "select" then "blocked"
  else if s == "IO wait" || s == "semacquire" || s == "sync.Cond.Wait" then "waiting"
  else "waiting"

/-- The scan state of `Parser.Parse`'s loop. -/
structure PState where
  inGoroutine : Bool
  currentState : String
  currentWait : String
  currentStack : List StackFrame
  currentCreatedBy : Option StackFrame
deriving DecidableEq, Repr

/-- The loop state before the first line. -/
def initPState : PState := ⟨false, "", "", [], none⟩

/-- The end-of-input flush of `Parser.Parse` (also reached when a
two-line construct runs out of input): save the current goroutine if
one is open and has at least one frame.  The two counters are the
ghost instrumentation carried by `parseLoop`. -/
def flushEnd (snap : Snapshot) (st : PState) : Snapshot × Nat × Nat :=
  if st.inGoroutine && !st.currentStack.isEmpty then
    (snap.AddGoroutine st.currentState st.currentStack st.currentWait
      st.currentCreatedBy, 1, 0)
  else (snap, 0, 0)

/-- The outcome of one pass of the scanner loop's body. -/
structure StepOut where
  snap : Snapshot
  st : PState
  adds : Nat
  hdrs : Nat
  two : Bool
deriving DecidableEq, Repr

/-- Saving the current goroutine: the `AddGoroutine` call of the loop. -/
def flushSnap (snap : Snapshot) (st : PState) : Snapshot :=
  snap.AddGoroutine st.currentState st.currentStack st.currentWait st.currentCreatedBy

/-- The per-line body of `Parser.Parse`'s scanner loop: from the open
snapshot, the loop state, the current line and the peeked next line
(`none` at end of input), produce the new snapshot and state, the
number of goroutine records saved by this step (via `AddGoroutine`),
the number of header lines recognized (the two ghost counters), and
whether the peeked line was consumed (the `scanner.Scan()` calls inside
the `created by` and stack-frame branches). -/
def stepLine (snap : Snapshot) (st : PState) (line : String) (next : Option String) :
    StepOut :=
  match goroutineHeaderMatch line with
  | some sw =>
      if st.inGoroutine && !st.currentStack.isEmpty then
        ⟨flushSnap snap st, ⟨true, parseState sw.1, sw.2, [], none⟩, 1, 1, false⟩
      else
        ⟨snap, ⟨true, parseState sw.1, sw.2, [], none⟩, 0, 1, false⟩
  | none =>
      if !st.inGoroutine then ⟨snap, st, 0, 0, false⟩
      else if line == "" then
        if !st.currentStack.isEmpty then
          ⟨flushSnap snap st, { st with inGoroutine := false }, 1, 0, false⟩
        else
          ⟨snap, { st with inGoroutine := false }, 0, 0, false⟩
      else
        match createdByMatch line with
        | some createdByFunc =>
            match next with
            | some fileLine =>
                match fileLineMatch fileLine with
                | some fl =>
                    ⟨snap,
                     { st with currentCreatedBy := some (StackFrame.mk
                        (extractFunctionName (stripInGoroutine createdByFunc))
                        fl.1 (fl.2 : Int)) },
                     0, 0, true⟩
                | none => ⟨snap, st, 0, 0, true⟩
            | none => ⟨snap, st, 0, 0, false⟩
        | none =>
            if (fileLineMatch line).isSome then ⟨snap, st, 0, 0, false⟩
            else if !(("\t".data).isPrefixOf line.data) &&
                !((" ".data).isPrefixOf line.data) then
              match next with
              | some fileLine =>
                  match fileLineMatch fileLine with
                  | some fl =>
                      ⟨snap,
                       { st with currentStack := st.currentStack ++
                          [StackFrame.mk (extractFunctionName line) fl.1 (fl.2 : Int)] },
                       0, 0, true⟩
                  | none => ⟨snap, st, 0, 0, true⟩
              | none => ⟨snap, st, 0, 0, false⟩
            else ⟨snap, st, 0, 0, false⟩

/-- Fold a step's ghost counters into the result of the rest of the
loop. -/
def addCounters (o : StepOut) (r : Snapshot × Nat × Nat) : Snapshot × Nat × Nat :=
  (r.1, r.2.1 + o.adds, r.2.2 + o.hdrs)

/-- `Parser.Parse`'s scanner loop over the dump's lines: run `stepLine`
on each line (giving it the next line, which the `created by` and
stack-frame branches may consume), and flush the open goroutine at end
of input.  Returns the snapshot plus the two ghost counters summed over
all steps. -/
def parseLoop : Snapshot → PState → List String → Snapshot × Nat × Nat
  | snap, st, [] => flushEnd snap st
  | snap, st, [line] =>
      addCounters (stepLine snap st line none)
        (flushEnd (stepLine snap st line none).snap (stepLine snap st line none).st)
  | snap, st, line :: next :: rest =>
      if (stepLine snap st line (some next)).two then
        addCounters (stepLine snap st line (some next))
          (parseLoop (stepLine snap st line (some next)).snap
            (stepLine snap st line (some next)).st rest)
      else
        addCounters (stepLine snap st line (some next))
          (parseLoop (stepLine snap st line (some next)).snap
            (stepLine snap st line (some next)).st (next :: rest))

/-- Split a character list at each `'\n'`. -/
def splitOnNewline : List Char → List (List Char)
  | [] => [[]]
  | c :: rest =>
      let r := splitOnNewline rest
      if c = '\n' then [] :: r
      else
        match r with
        | h :: t => (c :: h) :: t
        | [] => [[c]]

/-- `bufio.ScanLines`: split on `'\n'`, not emitting a final empty
line after a trailing newline, and dropping one trailing `'\r'` per
line. -/
def splitDumpLines (s : String) : List String :=
  let parts := splitOnNewline s.data
  let parts := if parts.getLast? = some [] then parts.dropLast else parts
  parts.map (fun l =>
    String.mk (if l.getLast? = some '\r' then l.dropLast else l))

/-- `Parser.Parse` over pre-split lines, with the ghost counters. -/
def ParseDump (lines : List String) (host : String) : Snapshot × Nat × Nat :=
  parseLoop (Snapshot.new host) initPState lines

/-- `Parser.ParseBytes`: the snapshot parsed from a byte stream. -/
def ParseBytes (input : String) (host : String) : Snapshot :=
  (ParseDump (splitDumpLines input) host).1

/-- The number of goroutine records the parser completed (saved via
`AddGoroutine`, i.e. records with at least one parsed frame). -/
def parsedRecords (input : String) (host : String) : Nat :=
  (ParseDump (splitDumpLines input) host).2.1

/-- The number of lines the parser's loop recognized as goroutine
headers. -/
def matchedHeaders (input : String) (host : String) : Nat :=
  (ParseDump (splitDumpLines input) host).2.2

theorem foldl_add_count (l : List (String × Group)) :
    ∀ a : Int, l.foldl (fun total p => total + p.2.count) a =
      a + (l.map (fun p => p.2.count)).sum := by
  induction l with
  | nil => intro a; simp
  | cons p rest ih =>
      intro a
      rw [List.foldl_cons, ih, List.map_cons, List.sum_cons]
      ring

/-- `TotalGoroutines` is the sum of the stored counts. -/
theorem totalGoroutines_eq_sum (s : Snapshot) :
    s.TotalGoroutines = (s.groups.map (fun p => p.2.count)).sum := by
  rw [Snapshot.TotalGoroutines, foldl_add_count]
  ring

theorem bumpGroup_sum (id w : String) :
    ∀ l : List (String × Group), (l.lookup id).isSome = true →
      ((bumpGroup id w l).map (fun p => p.2.count)).sum =
        (l.map (fun p => p.2.count)).sum + 1 := by
  intro l
  induction l with
  | nil => intro h; simp [List.lookup] at h
  | cons p rest ih =>
      intro h
      obtain ⟨k, g⟩ := p
      by_cases hk : k = id
      · rw [bumpGroup, if_pos hk]
        simp only [List.map_cons, List.sum_cons]
        ring
      · rw [bumpGroup, if_neg hk]
        simp only [List.map_cons, List.sum_cons]
        have hrest : (rest.lookup id).isSome = true := by
          rw [List.lookup_cons] at h
          have : (id == k) = false := beq_false_of_ne (fun he => hk he.symm)
          rw [this] at h
          exact h
        rw [ih hrest]
        ring

/-- Each `AddGoroutine` call increases the goroutine total by exactly
one: it either bumps one existing group's count or inserts a fresh
group of count 1. -/
theorem AddGoroutine_total (s : Snapshot) (state : String)
    (trace : List StackFrame) (w : String) (cb : Option StackFrame) :
    (s.AddGoroutine state trace w cb).TotalGoroutines =
      s.TotalGoroutines + 1 := by
  have key : ∀ g : Group, g.count = 1 →
      (if (s.groups.lookup g.id).isSome
       then { s with groups := bumpGroup g.id w s.groups }
       else { s with groups := s.groups ++ [(g.id, g)] } : Snapshot).TotalGoroutines
        = s.TotalGoroutines + 1 := by
    intro g hg1
    by_cases hc : (s.groups.lookup g.id).isSome = true
    · simp only [if_pos hc]
      rw [totalGoroutines_eq_sum, totalGoroutines_eq_sum]
      exact bumpGroup_sum g.id w s.groups hc
    · simp only [if_neg hc]
      rw [totalGoroutines_eq_sum, totalGoroutines_eq_sum]
      rw [List.map_append, List.sum_append]
      simp [hg1]
  have hrfl : s.AddGoroutine state trace w cb =
      (if (s.groups.lookup (gAdd state trace w cb).id).isSome
       then { s with groups := bumpGroup (gAdd state trace w cb).id w s.groups }
       else { s with groups := s.groups ++
         [((gAdd state trace w cb).id, gAdd state trace w cb)] } : Snapshot) := rfl
  rw [hrfl]
  exact key (gAdd state trace w cb) rfl

theorem flushEnd_total (snap : Snapshot) (st : PState) :
    (flushEnd snap st).1.TotalGoroutines =
      snap.TotalGoroutines + ((flushEnd snap st).2.1 : Int) := by
  rw [flushEnd]
  by_cases h : (st.inGoroutine && !st.currentStack.isEmpty) = true
  · rw [if_pos h]
    simp [AddGoroutine_total]
  · rw [if_neg h]
    simp

/-- One scanner step changes the total by exactly its record counter:
flushing branches add one goroutine of weight one, all others leave the
snapshot untouched. -/
theorem stepLine_total (snap : Snapshot) (st : PState) (line : String)
    (next : Option String) :
    (stepLine snap st line next).snap.TotalGoroutines =
      snap.TotalGoroutines + ((stepLine snap st line next).adds : Int) := by
  simp only [stepLine]
  repeat' split
  all_goals simp [flushSnap, AddGoroutine_total]

/-- The scanner loop's total is the starting total plus the number of
records it saved. -/
theorem parseLoop_total (snap : Snapshot) (st : PState) (lines : List String) :
    (parseLoop snap st lines).1.TotalGoroutines =
      snap.TotalGoroutines + ((parseLoop snap st lines).2.1 : Int) := by
  induction snap, st, lines using parseLoop.induct with
  | case1 snap st => exact flushEnd_total snap st
  | case2 snap st line =>
      rw [parseLoop, addCounters]
      simp only []
      rw [flushEnd_total, stepLine_total]
      push_cast
      ring
  | case3 snap st line next rest htwo ih =>
      rw [parseLoop, if_pos htwo, addCounters]
      simp only []
      rw [ih, stepLine_total]
      push_cast
      ring
  | case4 snap st line next rest htwo ih =>
      rw [parseLoop, if_neg htwo, addCounters]
      simp only []
      rw [ih, stepLine_total]
      push_cast
      ring

/-- Claim C3 counterexample: the dump `goroutine 1 [running]:\n` has one
header-matched goroutine record but no frame pair, so the parser saves
no group: the group-count sum is 0 while the number of records whose
header matched is 1. -/
theorem parse_total_counterexample :
    (ParseBytes "goroutine 1 [running]:\n" "h1").TotalGoroutines = 0 ∧
    matchedHeaders "goroutine 1 [running]:\n" "h1" = 1 ∧
    ¬ ((ParseBytes "goroutine 1 [running]:\n" "h1").TotalGoroutines =
        (matchedHeaders "goroutine 1 [running]:\n" "h1" : Int)) := by
  refine ⟨by decide, by decide, by decide⟩

/-- Claim C3 (amended): for every input byte stream, the sum over all
groups of the group's count equals the number of goroutine records the
parser completed — those with a matched header and at least one
successfully parsed frame pair, each contributing exactly 1 to exactly
one group's count; header-matched records with no parsed frame
contribute nothing. -/
theorem parse_total_amended (input : String) (host : String) :
    (ParseBytes input host).TotalGoroutines = (parsedRecords input host : Int) := by
  rw [ParseBytes, parsedRecords, ParseDump]
  rw [parseLoop_total]
  rw [totalGoroutines_eq_sum]
  simp [Snapshot.new]

/-- Claim C2 (code bug): the header regex's state class `[\w\s,]`
cannot match `.`, so the header `goroutine 7 [sync.Cond.Wait]:` — which
the spec lists as valid and `parseState`'s own `sync.Cond.Wait` case
expects — is not recognized, and a dump containing it with a valid frame
pair parses to a snapshot with no groups instead of one waiting group. -/
theorem syncCondWait_not_recognized :
    goroutineHeaderMatch "goroutine 7 [sync.Cond.Wait]:" = none ∧
    parseState "sync.Cond.Wait" = "waiting" ∧
    (ParseBytes "goroutine 7 [sync.Cond.Wait]:\nmain.main()\n\t/app/main.go:10 +0x20\n"
      "h1").groups = [] ∧
    (ParseBytes "goroutine 7 [running]:\nmain.main()\n\t/app/main.go:10 +0x20\n"
      "h1").groups.length = 1 := by
  refine ⟨by decide, by decide, by decide, by decide⟩

/-- FIPS 180-4 test vector: the digest of the empty message. -/
theorem sha256_empty_vector :
    hexEncode (sha256 []) =
      "e3b0c44298fc1c149afbf4c8996fb92427ae41e4649b934ca495991b7852b855" := by
  decide

/-- FIPS 180-4 test vector: the digest of `"abc"`. -/
theorem sha256_abc_vector :
    hexEncode (sha256 (strBytes "abc")) =
      "ba7816bf8f01cfea414140de5dae2223b00361a396177a9cb410ff61f20015ad" := by
  decide

end Goru
